import Mathlib

/-!
Verification development for the MR Utility Kit room geometry query engine
(`AMRUKRoom`, declared in `MRUtilityKitRoom.h`).  The repository ships only the
header with the public API declarations and documentation; the behaviour of the
operations is therefore modelled from the specification's description of each
operation, faithfully to its words, and the claims are settled against that
model.
-/

namespace MRUK

/-- A 3D vector (Unreal's `FVector`), with rational coordinates. -/
structure Vec3 where
  x : ℚ
  y : ℚ
  z : ℚ
deriving DecidableEq, Repr

/-- An axis-aligned box (Unreal's `FBox`), used for the room bounds. -/
structure Box3 where
  min : Vec3
  max : Vec3
deriving DecidableEq, Repr

/-- The empty/default box, to which `RoomBounds` is reset by `ClearRoom`. -/
def Box3.empty : Box3 :=
  { min := ⟨0, 0, 0⟩, max := ⟨0, 0, 0⟩ }

/-- Membership of a point in an axis-aligned box (inclusive bounds). -/
def Box3.contains (b : Box3) (p : Vec3) : Prop :=
  b.min.x ≤ p.x ∧ p.x ≤ b.max.x ∧
  b.min.y ≤ p.y ∧ p.y ≤ b.max.y ∧
  b.min.z ≤ p.z ∧ p.z ≤ b.max.z

instance (b : Box3) (p : Vec3) : Decidable (b.contains p) := by
  unfold Box3.contains; infer_instance

/-- A ray/geometry intersection record (`FMRUKHit`): hit point, surface normal
and distance along the ray at the hit. -/
structure FMRUKHit where
  hitPosition : Vec3
  hitNormal : Vec3
  hitDistance : ℚ
deriving DecidableEq, Repr

/-- A label filter (`FMRUKLabelFilter`): an include-set and an exclude-set of
labels restricting which anchors participate in a query. -/
structure FMRUKLabelFilter where
  includedLabels : List String
  excludedLabels : List String
deriving DecidableEq, Repr

/-- Method used by `GetBestPoseFromRaycast` to derive the placement pose
(`EMRUKPositioningMethod`). -/
inductive EMRUKPositioningMethod where
  | Center
  | Edge
  | Default
deriving DecidableEq, Repr

/-- A placement pose (`FTransform` as used by the queries): a position and a
forward direction standing for the rotation. -/
structure FTransform where
  translation : Vec3
  forward : Vec3
deriving DecidableEq, Repr

/-- Modelled from the spec: an anchor (`AMRUKAnchor`) is a labeled spatial
element exposing the local geometry primitives of spec §4.1
(`RayIntersect`, `NearestPoint`, `NearestEdge`) without knowledge of sibling
anchors.  The polymorphic geometry kinds (planar boundary / volume box /
triangle mesh) are modelled abstractly through those primitive query
functions, as the spec's component contract describes them; the remaining
fields carry the per-anchor data the room-level queries consume (identity,
labels, world position, wall plan-view corners and length, surface area,
surface center, recorded seat poses, optional volume box). -/
structure AMRUKAnchor where
  id : Nat
  labels : List String
  position : Vec3
  rayIntersect : Vec3 → Vec3 → ℚ → Option FMRUKHit
  nearestPoint : Vec3 → Vec3 × ℚ
  nearestEdge : Vec3 → Vec3 × Vec3
  corners : List (ℚ × ℚ)
  signedDistanceInFront : ℚ × ℚ → ℚ
  wallLength : ℚ
  surfaceArea : ℚ
  surfaceCenter : Vec3
  longEdgeDir : Vec3 → Vec3
  seatPoses : List FTransform
  volume : Option Box3

/-- Modelled from the spec: the room (`AMRUKRoom`) aggregates the anchors and
the derived structures declared in the header: room bounds, ordered boundary
edge polygon, floor/ceiling/global-mesh references, wall and seat anchor
lists, the full anchor list, and the loaded global-mesh data. -/
structure AMRUKRoom where
  roomBounds : Box3
  roomEdges : List Vec3
  floorAnchor : Option AMRUKAnchor
  ceilingAnchor : Option AMRUKAnchor
  wallAnchors : List AMRUKAnchor
  globalMeshAnchor : Option AMRUKAnchor
  seatAnchors : List AMRUKAnchor
  allAnchors : List AMRUKAnchor
  loadedGlobalMesh : Option (List Vec3 × List (Nat × Nat × Nat))

/-- Modelled from the spec: label-filter semantics — an anchor passes iff
(include-set empty OR the anchor has at least one included label) AND the
anchor has no excluded label. -/
def passesFilter (f : FMRUKLabelFilter) (a : AMRUKAnchor) : Bool :=
  (f.includedLabels.isEmpty || a.labels.any (fun l => f.includedLabels.contains l)) &&
    !(a.labels.any (fun l => f.excludedLabels.contains l))

/-- The anchors of a room that participate in a query for a given filter. -/
def filteredAnchors (room : AMRUKRoom) (f : FMRUKLabelFilter) : List AMRUKAnchor :=
  room.allAnchors.filter (fun a => passesFilter f a)

/-- Modelled from the spec: `RaycastAll` tests the ray against every anchor
passing the label filter and collects every hit, pairing each hit with the
anchor that produced it.  This is the list of (hit, anchor) pairs. -/
def raycastAllPairs (room : AMRUKRoom) (origin direction : Vec3) (maxDist : ℚ)
    (f : FMRUKLabelFilter) : List (FMRUKHit × AMRUKAnchor) :=
  (filteredAnchors room f).filterMap
    (fun a => (a.rayIntersect origin direction maxDist).map (fun h => (h, a)))

/-- Modelled from the spec: `RaycastAll(Origin, Direction, MaxDist, LabelFilter,
OutHits, OutAnchors)` returns the hit list, the positionally paired anchor
list, and whether the ray hit anything. -/
def RaycastAll (room : AMRUKRoom) (origin direction : Vec3) (maxDist : ℚ)
    (f : FMRUKLabelFilter) : List FMRUKHit × List AMRUKAnchor × Bool :=
  let pairs := raycastAllPairs room origin direction maxDist f
  (pairs.map (fun p => p.1), pairs.map (fun p => p.2), !pairs.isEmpty)

/-- Modelled from the spec: the closest-hit selection of `Raycast` — the ray is
tested against each anchor in anchor-list order and the globally closest hit
is kept, ties broken in favour of the first anchor encountered. -/
def raycastClosest (origin direction : Vec3) (maxDist : ℚ) :
    List AMRUKAnchor → Option (AMRUKAnchor × FMRUKHit)
  | [] => none
  | a :: rest =>
    match a.rayIntersect origin direction maxDist, raycastClosest origin direction maxDist rest with
    | none, r => r
    | some h, none => some (a, h)
    | some h, some (a2, h2) =>
      if h2.hitDistance < h.hitDistance then some (a2, h2) else some (a, h)

/-- Modelled from the spec: `Raycast` casts a ray and returns the closest hit
anchor together with the hit, or nothing when no filtered anchor is hit. -/
def Raycast (room : AMRUKRoom) (origin direction : Vec3) (maxDist : ℚ)
    (f : FMRUKLabelFilter) : Option (AMRUKAnchor × FMRUKHit) :=
  raycastClosest origin direction maxDist (filteredAnchors room f)

/-- Modelled from the spec: the linear scan of `TryGetClosestSurfacePosition` —
each filtered anchor's `NearestPoint` is evaluated and the anchor with the
minimum distance is kept (first anchor wins on ties). -/
def closestSurfaceScan (pos : Vec3) :
    List AMRUKAnchor → Option (AMRUKAnchor × Vec3 × ℚ)
  | [] => none
  | a :: rest =>
    let np := a.nearestPoint pos
    match closestSurfaceScan pos rest with
    | none => some (a, np.1, np.2)
    | some (a2, p2, d2) =>
      if d2 < np.2 then some (a2, p2, d2) else some (a, np.1, np.2)

/-- Modelled from the spec: `TryGetClosestSurfacePosition(WorldPosition, ...,
LabelFilter, MaxDistance)` scans the filtered anchors' nearest points keeping
the minimum; `MaxDistance ≤ 0` is treated as infinity; the search fails when
no anchor's nearest point is within a positive `MaxDistance` or the filtered
anchor set is empty. -/
def TryGetClosestSurfacePosition (room : AMRUKRoom) (worldPosition : Vec3)
    (f : FMRUKLabelFilter) (maxDistance : ℚ) : Option (AMRUKAnchor × Vec3 × ℚ) :=
  match closestSurfaceScan worldPosition (filteredAnchors room f) with
  | none => none
  | some (a, p, d) =>
    if maxDistance ≤ 0 || d ≤ maxDistance then some (a, p, d) else none

/-- One edge of the crossing test: the horizontal ray from the query point to
the right crosses the segment from `p1` to `p2`.  The crossing point's x
coordinate `p1.x + (py - p1.y) * (p2.x - p1.x) / (p2.y - p1.y)` lies between
the two endpoints' x coordinates. -/
def edgeCrosses (px py : ℚ) (p1 p2 : ℚ × ℚ) : Bool :=
  (decide (py < p1.2) != decide (py < p2.2)) &&
    decide (px < p1.1 + (py - p1.2) * (p2.1 - p1.1) / (p2.2 - p1.2))

/-- The consecutive (and wrap-around) edges of a closed polygon. -/
def polygonEdges : List (ℚ × ℚ) → List ((ℚ × ℚ) × (ℚ × ℚ))
  | [] => []
  | v :: vs => List.zip (v :: vs) (vs ++ [v])

/-- The number of list entries satisfying a Boolean predicate. -/
def countIf {α : Type} (p : α → Bool) : List α → Nat
  | [] => 0
  | e :: es => (if p e then 1 else 0) + countIf p es

/-- Modelled from the spec: the fast inside/outside 2D test against the derived
room boundary polygon — the standard even/odd ray-crossing test. -/
def isPointInPolygon2D (px py : ℚ) (poly : List (ℚ × ℚ)) : Bool :=
  countIf (fun e => edgeCrosses px py e.1 e.2) (polygonEdges poly) % 2 == 1

/-- The plan-view (x, y) projection of the room's boundary polygon vertices. -/
def AMRUKRoom.edgePolygon (room : AMRUKRoom) : List (ℚ × ℚ) :=
  room.roomEdges.map (fun v => (v.x, v.y))

/-- Modelled from the spec: `IsPositionInRoom(Position, TestVerticalBounds)` —
the position passes the derived boundary-polygon 2D test AND, when
`TestVerticalBounds` is set, its height lies between the floor height and the
ceiling height inclusive. -/
def IsPositionInRoom (room : AMRUKRoom) (position : Vec3)
    (testVerticalBounds : Bool) : Bool :=
  isPointInPolygon2D position.x position.y room.edgePolygon &&
    (!testVerticalBounds ||
      ((match room.floorAnchor with
        | some fa => decide (fa.position.z ≤ position.z)
        | none => true) &&
       (match room.ceilingAnchor with
        | some ca => decide (position.z ≤ ca.position.z)
        | none => true)))

/-- Modelled from the spec: the retry budget of the random-position sampling
loop — "a maximum retry count bounds the loop". -/
def maxGenerateRetries : Nat := 1000

/-- Clamp a rational to the unit interval. -/
def clamp01 (q : ℚ) : ℚ := max 0 (min 1 q)

/-- Modelled from the spec: one uniform sample inside the room's bounding box,
obtained from a raw random triple by clamping to the unit cube and
interpolating the box extents. -/
def sampleInBounds (b : Box3) (u : Vec3) : Vec3 :=
  { x := b.min.x + clamp01 u.x * (b.max.x - b.min.x)
    y := b.min.y + clamp01 u.y * (b.max.y - b.min.y)
    z := b.min.z + clamp01 u.z * (b.max.z - b.min.z) }

/-- The trivial label filter that lets every anchor participate. -/
def noFilter : FMRUKLabelFilter := { includedLabels := [], excludedLabels := [] }

/-- A point is outside a box expanded by a margin on each face. -/
def outsideExpandedBox (b : Box3) (margin : ℚ) (p : Vec3) : Bool :=
  decide (p.x < b.min.x - margin) || decide (b.max.x + margin < p.x) ||
  decide (p.y < b.min.y - margin) || decide (b.max.y + margin < p.y) ||
  decide (p.z < b.min.z - margin) || decide (b.max.z + margin < p.z)

/-- Modelled from the spec: the acceptance test of the rejection-sampling loop
— the candidate must be inside the room, its nearest-surface distance must be
at least `minDistanceToSurface`, and when `avoidVolumes` is set it must be
outside every volume anchor by at least that margin. -/
def positionAcceptable (room : AMRUKRoom) (minDistanceToSurface : ℚ)
    (avoidVolumes : Bool) (p : Vec3) : Bool :=
  IsPositionInRoom room p true &&
    (match TryGetClosestSurfacePosition room p noFilter 0 with
     | some (_, _, d) => decide (minDistanceToSurface ≤ d)
     | none => true) &&
    (!avoidVolumes ||
      room.allAnchors.all (fun a =>
        match a.volume with
        | some b => outsideExpandedBox b minDistanceToSurface p
        | none => true))

/-- Modelled from the spec: the bounded rejection-sampling loop — sample
uniformly inside the room bounding box, accept when `positionAcceptable`
holds, and give up (returning nothing) once the retry budget is exhausted.
`i` is the index of the next sample in the stream, `fuel` the remaining
retries. -/
def generateLoop (room : AMRUKRoom) (stream : Nat → Vec3)
    (minDistanceToSurface : ℚ) (avoidVolumes : Bool) : Nat → Nat → Option Vec3
  | _, 0 => none
  | i, fuel + 1 =>
    let p := sampleInBounds room.roomBounds (stream i)
    if positionAcceptable room minDistanceToSurface avoidVolumes p then some p
    else generateLoop room stream minDistanceToSurface avoidVolumes (i + 1) fuel

/-- Modelled from the spec: `GenerateRandomPositionInRoomFromStream` — the
rejection-sampling loop driven by the caller's random stream, bounded by the
maximum retry count. -/
def GenerateRandomPositionInRoomFromStream (room : AMRUKRoom)
    (stream : Nat → Vec3) (minDistanceToSurface : ℚ) (avoidVolumes : Bool) :
    Option Vec3 :=
  generateLoop room stream minDistanceToSurface avoidVolumes 0 maxGenerateRetries

/-- Modelled from the spec: the process-wide default random generator used by
the non-seeded variant, as one fixed stream of samples. -/
def defaultRandomStream : Nat → Vec3 :=
  fun i => ⟨(i % 7 : Nat) / 7, (i % 11 : Nat) / 11, (i % 13 : Nat) / 13⟩

/-- Modelled from the spec: `GenerateRandomPositionInRoom` — the same loop as
the `FromStream` variant, driven by the process-wide default generator. -/
def GenerateRandomPositionInRoom (room : AMRUKRoom)
    (minDistanceToSurface : ℚ) (avoidVolumes : Bool) : Option Vec3 :=
  GenerateRandomPositionInRoomFromStream room defaultRandomStream
    minDistanceToSurface avoidVolumes

/-- Modelled from the spec: a wall has another wall behind it when some other
wall has a corner lying behind the wall's plane, beyond the tolerance along
its outward normal. -/
def wallHasWallBehind (walls : List AMRUKAnchor) (w : AMRUKAnchor)
    (tolerance : ℚ) : Bool :=
  walls.any (fun w2 =>
    w2.id != w.id &&
      w2.corners.any (fun c => decide (w.signedDistanceInFront c < -tolerance)))

/-- The wall anchors that are candidates for the key wall: those with no other
wall behind them beyond the tolerance. -/
def keyWallCandidates (room : AMRUKRoom) (tolerance : ℚ) : List AMRUKAnchor :=
  room.wallAnchors.filter (fun w => !wallHasWallBehind room.wallAnchors w tolerance)

/-- Modelled from the spec: selection of the longest wall from a candidate
list, ties broken in favour of the first wall in anchor-list order. -/
def selectLongestWall : List AMRUKAnchor → Option AMRUKAnchor
  | [] => none
  | w :: ws =>
    match selectLongestWall ws with
    | none => some w
    | some w2 => if w.wallLength < w2.wallLength then some w2 else some w

/-- Modelled from the spec: `GetKeyWall(Tolerance)` — the longest wall in the
room that has no other wall behind it, or nothing when no wall qualifies. -/
def GetKeyWall (room : AMRUKRoom) (tolerance : ℚ) : Option AMRUKAnchor :=
  selectLongestWall (keyWallCandidates room tolerance)

/-- Modelled from the spec: `GetAnchorsByLabel(Label)` — all anchors of the
room carrying the given label. -/
def GetAnchorsByLabel (room : AMRUKRoom) (label : String) : List AMRUKAnchor :=
  room.allAnchors.filter (fun a => a.labels.contains label)

/-- Modelled from the spec: `GetFirstAnchorByLabel(Label)` — the first anchor
in the room (in insertion order of `AllAnchors`) carrying the given label. -/
def GetFirstAnchorByLabel (room : AMRUKRoom) (label : String) :
    Option AMRUKAnchor :=
  room.allAnchors.find? (fun a => a.labels.contains label)

/-- Modelled from the spec: `DoesRoomHave(Labels)` — whether any anchor of the
room carries any of the given labels. -/
def DoesRoomHave (room : AMRUKRoom) (labels : List String) : Bool :=
  room.allAnchors.any (fun a => a.labels.any (fun l => labels.contains l))

/-- Modelled from the spec: `GetLargestSurface(Label)` — among anchors carrying
the label, the one with the maximum surface area (first wins on ties). -/
def selectLargestSurface : List AMRUKAnchor → Option AMRUKAnchor
  | [] => none
  | a :: rest =>
    match selectLargestSurface rest with
    | none => some a
    | some a2 => if a.surfaceArea < a2.surfaceArea then some a2 else some a

/-- Modelled from the spec: `GetLargestSurface(Label)` filters the anchors by
label and keeps the one with the largest surface. -/
def GetLargestSurface (room : AMRUKRoom) (label : String) : Option AMRUKAnchor :=
  selectLargestSurface (GetAnchorsByLabel room label)

/-- Squared norm of the component of `v` orthogonal to `d` scaled by `‖d‖²`:
comparing this value across seat poses orders them by perpendicular distance
from the ray's line. -/
def perpDistSqScaled (o d p : Vec3) : ℚ :=
  let wx := p.x - o.x
  let wy := p.y - o.y
  let wz := p.z - o.z
  let cx := wy * d.z - wz * d.y
  let cy := wz * d.x - wx * d.z
  let cz := wx * d.y - wy * d.x
  cx * cx + cy * cy + cz * cz

/-- All recorded seat poses of the room, each paired with its seat anchor. -/
def seatPosePairs (room : AMRUKRoom) : List (AMRUKAnchor × FTransform) :=
  room.seatAnchors.flatMap (fun a => a.seatPoses.map (fun t => (a, t)))

/-- Modelled from the spec: selection of the recorded seat pose whose position
has the smallest perpendicular distance to the ray's line (first wins on
ties). -/
def selectClosestSeat (o d : Vec3) :
    List (AMRUKAnchor × FTransform) → Option (AMRUKAnchor × FTransform)
  | [] => none
  | (a, t) :: rest =>
    match selectClosestSeat o d rest with
    | none => some (a, t)
    | some (a2, t2) =>
      if perpDistSqScaled o d t2.translation < perpDistSqScaled o d t.translation
      then some (a2, t2) else some (a, t)

/-- Modelled from the spec: `TryGetClosestSeatPose(RayOrigin, RayDirection,
OutSeatTransform)` — among all recorded seat poses, the one whose position is
closest to the ray's line, or nothing when no seat is recorded. -/
def TryGetClosestSeatPose (room : AMRUKRoom) (rayOrigin rayDirection : Vec3) :
    Option (AMRUKAnchor × FTransform) :=
  selectClosestSeat rayOrigin rayDirection (seatPosePairs room)

/-- Whether an anchor is one of the room's wall anchors (`IsWallAnchor`),
compared by identity. -/
def IsWallAnchor (room : AMRUKRoom) (a : AMRUKAnchor) : Bool :=
  room.wallAnchors.any (fun w => w.id == a.id)

/-- Modelled from the spec: the rotation part of the pose derived from a
raycast hit — wall anchors use the hit normal as forward; floor anchors face
the ray origin (yaw only); volumes hit on top align with the nearest long
edge of the top face. -/
def derivePoseForward (room : AMRUKRoom) (a : AMRUKAnchor) (rayOrigin : Vec3)
    (h : FMRUKHit) : Vec3 :=
  if IsWallAnchor room a then h.hitNormal
  else if room.floorAnchor.any (fun fa => fa.id == a.id) then
    ⟨rayOrigin.x - h.hitPosition.x, rayOrigin.y - h.hitPosition.y, 0⟩
  else a.longEdgeDir h.hitPosition

/-- Modelled from the spec: the position part of the pose — `Default` uses the
hit point, `Center` the projected center of the struck surface, `Edge` the
boundary edge point nearest to the ray origin. -/
def derivePosePosition (a : AMRUKAnchor) (rayOrigin : Vec3) (h : FMRUKHit) :
    EMRUKPositioningMethod → Vec3
  | .Default => h.hitPosition
  | .Center => a.surfaceCenter
  | .Edge => (a.nearestEdge rayOrigin).1

/-- Modelled from the spec: `GetBestPoseFromRaycast(RayOrigin, RayDirection,
MaxDist, LabelFilter, OutPose, PositioningMethod)` — first raycasts to find
the struck anchor and hit, then derives the pose per positioning method. -/
def GetBestPoseFromRaycast (room : AMRUKRoom) (rayOrigin rayDirection : Vec3)
    (maxDist : ℚ) (f : FMRUKLabelFilter) (method : EMRUKPositioningMethod) :
    Option (AMRUKAnchor × FTransform) :=
  (Raycast room rayOrigin rayDirection maxDist f).map (fun (a, h) =>
    (a, { translation := derivePosePosition a rayOrigin h method
          forward := derivePoseForward room a rayOrigin h }))

/-- Modelled from the spec: `ClearRoom()` — releases all anchors and resets
bounds, edges and all hierarchy references to empty/default; the second
component is the list of anchors for which a removal notification is fired. -/
def ClearRoom (room : AMRUKRoom) : AMRUKRoom × List AMRUKAnchor :=
  ({ roomBounds := Box3.empty
     roomEdges := []
     floorAnchor := none
     ceilingAnchor := none
     wallAnchors := []
     globalMeshAnchor := none
     seatAnchors := []
     allAnchors := []
     loadedGlobalMesh := none }, room.allAnchors)

/-- Modelled from the spec: the global-mesh JSON document after the external
JSON plumbing has parsed the string — each required array is present or
missing/malformed. -/
structure FMRUKGlobalMeshJson where
  vertices : Option (List Vec3)
  triangles : Option (List (Nat × Nat × Nat))

/-- Every triangle references only valid vertex indices. -/
def trianglesInRange (vs : List Vec3) (ts : List (Nat × Nat × Nat)) : Bool :=
  ts.all (fun t =>
    decide (t.1 < vs.length) && decide (t.2.1 < vs.length) &&
      decide (t.2.2 < vs.length))

/-- Modelled from the spec: `LoadGlobalMeshFromJsonString(JsonString)` — the
string is parsed by the external JSON layer (`none` models an unparseable
string); the load fails (returning false, with the room unchanged) when a
required array is missing or malformed or a triangle index is out of bounds,
and otherwise installs the mesh and succeeds. -/
def LoadGlobalMeshFromJsonString (room : AMRUKRoom)
    (doc : Option FMRUKGlobalMeshJson) : Bool × AMRUKRoom :=
  match doc with
  | none => (false, room)
  | some d =>
    match d.vertices, d.triangles with
    | some vs, some ts =>
      if trianglesInRange vs ts then
        (true, { room with loadedGlobalMesh := some (vs, ts) })
      else (false, room)
    | _, _ => (false, room)

/-! ## Helper lemmas about the closest-hit selection -/

/-- The (hit, anchor) pairs a ray collects from a list of anchors. -/
def rayPairs (o d : Vec3) (m : ℚ) (l : List AMRUKAnchor) :
    List (FMRUKHit × AMRUKAnchor) :=
  l.filterMap (fun a => (a.rayIntersect o d m).map (fun h => (h, a)))

theorem raycastAllPairs_eq_rayPairs (room : AMRUKRoom) (o d : Vec3) (m : ℚ)
    (f : FMRUKLabelFilter) :
    raycastAllPairs room o d m f = rayPairs o d m (filteredAnchors room f) := rfl

theorem raycastClosest_eq_none_iff (o d : Vec3) (m : ℚ) (l : List AMRUKAnchor) :
    raycastClosest o d m l = none ↔ rayPairs o d m l = [] := by
  induction l with
  | nil => simp [raycastClosest, rayPairs]
  | cons a rest ih =>
    cases hra : a.rayIntersect o d m with
    | none =>
      simp only [raycastClosest, rayPairs, List.filterMap_cons, hra]
      exact ih
    | some h =>
      simp only [raycastClosest, rayPairs, List.filterMap_cons, hra, Option.map_some]
      cases hrc : raycastClosest o d m rest with
      | none => simp
      | some r =>
        rcases r with ⟨a2, h2⟩
        by_cases hlt : h2.hitDistance < h.hitDistance <;> simp [hlt]

theorem raycastClosest_eq_some (o d : Vec3) (m : ℚ) (l : List AMRUKAnchor)
    (a : AMRUKAnchor) (h : FMRUKHit)
    (hc : raycastClosest o d m l = some (a, h)) :
    ∃ l1 l2, rayPairs o d m l = l1 ++ (h, a) :: l2 ∧
      (∀ p ∈ l1, h.hitDistance < p.1.hitDistance) ∧
      (∀ p ∈ l2, h.hitDistance ≤ p.1.hitDistance) := by
  induction l generalizing a h with
  | nil => simp [raycastClosest] at hc
  | cons a0 rest ih =>
    cases hra : a0.rayIntersect o d m with
    | none =>
      rw [raycastClosest, hra] at hc
      rcases ih a h hc with ⟨l1, l2, heq, h1, h2⟩
      exact ⟨l1, l2, by simp [rayPairs, List.filterMap_cons, hra] at heq ⊢; exact heq,
        h1, h2⟩
    | some h0 =>
      rw [raycastClosest, hra] at hc
      cases hrc : raycastClosest o d m rest with
      | none =>
        rw [hrc] at hc
        dsimp only at hc
        simp only [Option.some.injEq, Prod.mk.injEq] at hc
        obtain ⟨rfl, rfl⟩ := hc
        have hrest : rayPairs o d m rest = [] :=
          (raycastClosest_eq_none_iff o d m rest).mp hrc
        refine ⟨[], [], ?_, by simp, by simp⟩
        simpa [rayPairs, List.filterMap_cons, hra] using hrest
      | some r =>
        rcases r with ⟨a2, h2⟩
        rw [hrc] at hc
        dsimp only at hc
        rcases ih a2 h2 hrc with ⟨l1, l2, heq, hl1, hl2⟩
        have hmin : ∀ p ∈ rayPairs o d m rest, h2.hitDistance ≤ p.1.hitDistance := by
          intro p hp
          rw [heq] at hp
          rcases List.mem_append.mp hp with hp1 | hp2
          · exact le_of_lt (hl1 p hp1)
          · rcases List.mem_cons.mp hp2 with hpe | hp2'
            · rw [hpe]
            · exact hl2 p hp2'
        by_cases hlt0 : h2.hitDistance < h0.hitDistance
        · rw [if_pos hlt0] at hc
          simp only [Option.some.injEq, Prod.mk.injEq] at hc
          obtain ⟨rfl, rfl⟩ := hc
          refine ⟨(h0, a0) :: l1, l2, ?_, ?_, hl2⟩
          · simp [rayPairs, List.filterMap_cons, hra] at heq ⊢
            exact heq
          · intro p hp
            rcases List.mem_cons.mp hp with hpe | hp'
            · rw [hpe]; exact hlt0
            · exact hl1 p hp'
        · rw [if_neg hlt0] at hc
          simp only [Option.some.injEq, Prod.mk.injEq] at hc
          obtain ⟨rfl, rfl⟩ := hc
          refine ⟨[], rayPairs o d m rest, ?_, by simp, ?_⟩
          · simp [rayPairs, List.filterMap_cons, hra]
          · intro p hp
            exact le_trans (le_of_not_lt hlt0) (hmin p hp)

theorem mem_rayPairs (o d : Vec3) (m : ℚ) (l : List AMRUKAnchor)
    (p : FMRUKHit × AMRUKAnchor) (hp : p ∈ rayPairs o d m l) :
    p.2 ∈ l ∧ p.2.rayIntersect o d m = some p.1 := by
  rcases List.mem_filterMap.mp hp with ⟨a, ha, hfa⟩
  rcases Option.map_eq_some'.mp hfa with ⟨h, hh, hph⟩
  rcases hph
  exact ⟨ha, hh⟩

/-! ## Concrete fixtures used by the witnesses -/

/-- An anchor with inert geometry, used as the base of concrete test anchors. -/
def baseAnchor (i : Nat) : AMRUKAnchor :=
  { id := i
    labels := []
    position := ⟨0, 0, 0⟩
    rayIntersect := fun _ _ _ => none
    nearestPoint := fun _ => (⟨0, 0, 0⟩, 0)
    nearestEdge := fun _ => (⟨0, 0, 0⟩, ⟨0, 0, 0⟩)
    corners := []
    signedDistanceInFront := fun _ => 0
    wallLength := 0
    surfaceArea := 0
    surfaceCenter := ⟨0, 0, 0⟩
    longEdgeDir := fun _ => ⟨1, 0, 0⟩
    seatPoses := []
    volume := none }

/-- A hit at a given distance along the x axis. -/
def probeHit (dist : ℚ) : FMRUKHit :=
  { hitPosition := ⟨dist, 0, 0⟩, hitNormal := ⟨-1, 0, 0⟩, hitDistance := dist }

/-- An anchor whose planar geometry reports a fixed ray hit. -/
def probeAnchor (i : Nat) (hit : Option FMRUKHit) : AMRUKAnchor :=
  { baseAnchor i with rayIntersect := fun _ _ _ => hit }

/-- A room holding a given anchor list, with inert derived state. -/
def probeRoom (anchors : List AMRUKAnchor) : AMRUKRoom :=
  { roomBounds := ⟨⟨0, 0, 0⟩, ⟨4, 3, 2⟩⟩
    roomEdges := []
    floorAnchor := none
    ceilingAnchor := none
    wallAnchors := []
    globalMeshAnchor := none
    seatAnchors := []
    allAnchors := anchors
    loadedGlobalMesh := none }

/-- The two-anchor room used by the raycast witnesses: the first anchor is hit
at distance 5, the second at distance 3. -/
def twoHitRoom : AMRUKRoom :=
  probeRoom [probeAnchor 1 (some (probeHit 5)), probeAnchor 2 (some (probeHit 3))]

/-! ## Claim theorems -/

/-- Claim C1: if `Raycast` returns a hit then its distance is the minimum of
the distances of all hits returned by `RaycastAll` for the same ray and
filter, with ties broken in favour of the first anchor in anchor-list
(insertion) order, and `Raycast` returns no anchor iff `RaycastAll` returns
an empty hit list. -/
theorem raycast_agrees_with_raycastAll (room : AMRUKRoom) (o d : Vec3) (m : ℚ)
    (f : FMRUKLabelFilter) :
    (∀ a h, Raycast room o d m f = some (a, h) →
      (h ∈ (RaycastAll room o d m f).1 ∧
        ∀ h' ∈ (RaycastAll room o d m f).1, h.hitDistance ≤ h'.hitDistance) ∧
      ∃ l1 l2, raycastAllPairs room o d m f = l1 ++ (h, a) :: l2 ∧
        ∀ p ∈ l1, h.hitDistance < p.1.hitDistance) ∧
    (Raycast room o d m f = none ↔ (RaycastAll room o d m f).1 = []) := by
  have hhits : (RaycastAll room o d m f).1 =
      (raycastAllPairs room o d m f).map (fun p => p.1) := rfl
  constructor
  · intro a h hc
    rcases raycastClosest_eq_some o d m (filteredAnchors room f) a h hc with
      ⟨l1, l2, heq, hl1, hl2⟩
    have heq' : raycastAllPairs room o d m f = l1 ++ (h, a) :: l2 := heq
    refine ⟨⟨?_, ?_⟩, l1, l2, heq', hl1⟩
    · rw [hhits, heq']
      simp
    · intro h' hh'
      rw [hhits, heq'] at hh'
      rcases List.mem_map.mp hh' with ⟨p, hp, hph⟩
      subst hph
      rcases List.mem_append.mp hp with hp1 | hp2
      · exact le_of_lt (hl1 p hp1)
      · rcases List.mem_cons.mp hp2 with hpe | hp2'
        · rw [hpe]
        · exact hl2 p hp2'
  · rw [hhits]
    constructor
    · intro hn
      have hp : raycastAllPairs room o d m f = [] :=
        (raycastClosest_eq_none_iff o d m (filteredAnchors room f)).mp hn
      rw [hp]
      rfl
    · intro hn
      apply (raycastClosest_eq_none_iff o d m (filteredAnchors room f)).mpr
      exact List.map_eq_nil_iff.mp hn

/-- Witness for C1: in the two-anchor room the ray strikes the second anchor
at distance 3, which is the minimum over `RaycastAll`'s hits. -/
theorem raycast_agrees_with_raycastAll_witness :
    Raycast twoHitRoom ⟨0, 0, 0⟩ ⟨1, 0, 0⟩ 10 noFilter =
      some (probeAnchor 2 (some (probeHit 3)), probeHit 3) ∧
    ((probeHit 3 ∈ (RaycastAll twoHitRoom ⟨0, 0, 0⟩ ⟨1, 0, 0⟩ 10 noFilter).1 ∧
      ∀ h' ∈ (RaycastAll twoHitRoom ⟨0, 0, 0⟩ ⟨1, 0, 0⟩ 10 noFilter).1,
        (probeHit 3).hitDistance ≤ h'.hitDistance) ∧
     ∃ l1 l2, raycastAllPairs twoHitRoom ⟨0, 0, 0⟩ ⟨1, 0, 0⟩ 10 noFilter =
        l1 ++ (probeHit 3, probeAnchor 2 (some (probeHit 3))) :: l2 ∧
       ∀ p ∈ l1, (probeHit 3).hitDistance < p.1.hitDistance) :=
  ⟨rfl, (raycast_agrees_with_raycastAll twoHitRoom ⟨0, 0, 0⟩ ⟨1, 0, 0⟩ 10
    noFilter).1 (probeAnchor 2 (some (probeHit 3))) (probeHit 3) rfl⟩

/-- Claim C10: `RaycastAll`'s two output arrays have equal length and are
positionally paired — each anchor is the one whose geometry produced the hit
at the same position — and the boolean result is true iff at least one hit
was collected. -/
theorem raycastAll_outputs_paired (room : AMRUKRoom) (o d : Vec3) (m : ℚ)
    (f : FMRUKLabelFilter) :
    (RaycastAll room o d m f).1.length = (RaycastAll room o d m f).2.1.length ∧
    (∀ p ∈ (RaycastAll room o d m f).1.zip (RaycastAll room o d m f).2.1,
      p.2.rayIntersect o d m = some p.1) ∧
    ((RaycastAll room o d m f).2.2 = true ↔ (RaycastAll room o d m f).1 ≠ []) := by
  have hhits : (RaycastAll room o d m f).1 =
      (raycastAllPairs room o d m f).map (fun p => p.1) := rfl
  have hanchors : (RaycastAll room o d m f).2.1 =
      (raycastAllPairs room o d m f).map (fun p => p.2) := rfl
  have hbool : (RaycastAll room o d m f).2.2 =
      !(raycastAllPairs room o d m f).isEmpty := rfl
  refine ⟨by rw [hhits, hanchors]; simp, ?_, ?_⟩
  · intro p hp
    rw [hhits, hanchors, List.zip_map'] at hp
    rcases List.mem_map.mp hp with ⟨q, hq, hqp⟩
    subst hqp
    exact (mem_rayPairs o d m (filteredAnchors room f) q hq).2
  · rw [hhits, hbool]
    rcases raycastAllPairs room o d m f with _ | ⟨p, ps⟩ <;> simp [List.isEmpty]

/-- Witness for C10: in the two-anchor room the first zipped (hit, anchor)
pair satisfies the pairing property. -/
theorem raycastAll_outputs_paired_witness :
    (probeHit 5, probeAnchor 1 (some (probeHit 5))) ∈
      (RaycastAll twoHitRoom ⟨0, 0, 0⟩ ⟨1, 0, 0⟩ 10 noFilter).1.zip
        (RaycastAll twoHitRoom ⟨0, 0, 0⟩ ⟨1, 0, 0⟩ 10 noFilter).2.1 ∧
    (probeAnchor 1 (some (probeHit 5))).rayIntersect ⟨0, 0, 0⟩ ⟨1, 0, 0⟩ 10 =
      some (probeHit 5) :=
  ⟨List.mem_cons_self _ _,
    (raycastAll_outputs_paired twoHitRoom ⟨0, 0, 0⟩ ⟨1, 0, 0⟩ 10 noFilter).2.1
      (probeHit 5, probeAnchor 1 (some (probeHit 5))) (List.mem_cons_self _ _)⟩

theorem closestSurfaceScan_eq_none_iff (pos : Vec3) (l : List AMRUKAnchor) :
    closestSurfaceScan pos l = none ↔ l = [] := by
  cases l with
  | nil => simp [closestSurfaceScan]
  | cons a rest =>
    simp only [closestSurfaceScan, List.cons_ne_nil, iff_false]
    cases hrc : closestSurfaceScan pos rest with
    | none => simp
    | some r => rcases r with ⟨a2, p2, d2⟩; by_cases hlt : d2 < (a.nearestPoint pos).2 <;> simp [hlt]

theorem closestSurfaceScan_eq_some (pos : Vec3) (l : List AMRUKAnchor)
    (a : AMRUKAnchor) (p : Vec3) (d : ℚ)
    (hc : closestSurfaceScan pos l = some (a, p, d)) :
    a ∈ l ∧ (p, d) = a.nearestPoint pos ∧
      ∀ a' ∈ l, d ≤ (a'.nearestPoint pos).2 := by
  induction l generalizing a p d with
  | nil => simp [closestSurfaceScan] at hc
  | cons a0 rest ih =>
    rw [closestSurfaceScan] at hc
    cases hrc : closestSurfaceScan pos rest with
    | none =>
      rw [hrc] at hc
      dsimp only at hc
      simp only [Option.some.injEq, Prod.mk.injEq] at hc
      obtain ⟨rfl, rfl, rfl⟩ := hc
      have hrest : rest = [] := (closestSurfaceScan_eq_none_iff pos rest).mp hrc
      subst hrest
      exact ⟨List.mem_singleton.mpr rfl, rfl, by simp⟩
    | some r =>
      rcases r with ⟨a2, p2, d2⟩
      rw [hrc] at hc
      dsimp only at hc
      rcases ih a2 p2 d2 hrc with ⟨hmem, hnp, hmin⟩
      by_cases hlt : d2 < (a0.nearestPoint pos).2
      · rw [if_pos hlt] at hc
        simp only [Option.some.injEq, Prod.mk.injEq] at hc
        obtain ⟨rfl, rfl, rfl⟩ := hc
        refine ⟨List.mem_cons_of_mem a0 hmem, hnp, ?_⟩
        intro a' ha'
        rcases List.mem_cons.mp ha' with rfl | ha''
        · exact le_of_lt hlt
        · exact hmin a' ha''
      · rw [if_neg hlt] at hc
        simp only [Option.some.injEq, Prod.mk.injEq] at hc
        obtain ⟨rfl, rfl, rfl⟩ := hc
        refine ⟨List.mem_cons_self _ _, rfl, ?_⟩
        intro a' ha'
        rcases List.mem_cons.mp ha' with rfl | ha''
        · exact le_refl _
        · exact le_trans (le_of_not_lt hlt) (hmin a' ha'')

/-- Claim C3: `TryGetClosestSurfacePosition` returns the filtered anchor whose
nearest point to the query position has the minimum distance, together with
that point and distance; `MaxDistance ≤ 0` is treated as unbounded; it
returns nothing exactly when the filtered anchor set is empty or no filtered
anchor's nearest point lies within a positive `MaxDistance`. -/
theorem tryGetClosestSurfacePosition_spec (room : AMRUKRoom) (pos : Vec3)
    (f : FMRUKLabelFilter) (maxD : ℚ) :
    (∀ a p d, TryGetClosestSurfacePosition room pos f maxD = some (a, p, d) →
      a ∈ filteredAnchors room f ∧ (p, d) = a.nearestPoint pos ∧
      (∀ a' ∈ filteredAnchors room f, d ≤ (a'.nearestPoint pos).2) ∧
      (maxD ≤ 0 ∨ d ≤ maxD)) ∧
    (TryGetClosestSurfacePosition room pos f maxD = none ↔
      filteredAnchors room f = [] ∨
        (0 < maxD ∧ ∀ a' ∈ filteredAnchors room f, maxD < (a'.nearestPoint pos).2)) := by
  constructor
  · intro a p d hc
    rw [TryGetClosestSurfacePosition] at hc
    cases hrc : closestSurfaceScan pos (filteredAnchors room f) with
    | none => rw [hrc] at hc; simp at hc
    | some r =>
      rcases r with ⟨a0, p0, d0⟩
      rw [hrc] at hc
      dsimp only at hc
      by_cases hok : (decide (maxD ≤ 0) || decide (d0 ≤ maxD)) = true
      · rw [if_pos hok] at hc
        simp only [Option.some.injEq, Prod.mk.injEq] at hc
        rcases closestSurfaceScan_eq_some pos (filteredAnchors room f) a0 p0 d0 hrc with
          ⟨hmem, hnp, hmin⟩
        obtain ⟨rfl, rfl, rfl⟩ := hc
        refine ⟨hmem, hnp, hmin, ?_⟩
        rcases Bool.or_eq_true_iff.mp hok with h1 | h2
        · exact Or.inl (of_decide_eq_true h1)
        · exact Or.inr (of_decide_eq_true h2)
      · rw [if_neg hok] at hc
        simp at hc
  · rw [TryGetClosestSurfacePosition]
    cases hrc : closestSurfaceScan pos (filteredAnchors room f) with
    | none =>
      have hemp : filteredAnchors room f = [] :=
        (closestSurfaceScan_eq_none_iff pos (filteredAnchors room f)).mp hrc
      simp [hemp]
    | some r =>
      rcases r with ⟨a0, p0, d0⟩
      rcases closestSurfaceScan_eq_some pos (filteredAnchors room f) a0 p0 d0 hrc with
        ⟨hmem, hnp, hmin⟩
      have hne : filteredAnchors room f ≠ [] := by
        intro he; rw [he] at hmem; exact List.not_mem_nil a0 hmem
      dsimp only
      by_cases hok : (decide (maxD ≤ 0) || decide (d0 ≤ maxD)) = true
      · rw [if_pos hok]
        constructor
        · intro hcon; cases hcon
        · rintro (he | ⟨hpos, hall⟩)
          · exact absurd he hne
          · exfalso
            rcases Bool.or_eq_true_iff.mp hok with h1 | h2
            · exact absurd (of_decide_eq_true h1) (not_le_of_lt hpos)
            · have hd0 : d0 = (a0.nearestPoint pos).2 := congrArg Prod.snd hnp
              have h2' : d0 ≤ maxD := of_decide_eq_true h2
              rw [hd0] at h2'
              exact absurd h2' (not_le_of_lt (hall a0 hmem))
      · rw [if_neg hok]
        simp only [Bool.or_eq_true, decide_eq_true_eq, not_or, not_le] at hok
        constructor
        · intro _
          exact Or.inr ⟨hok.1, fun a' ha' => lt_of_lt_of_le hok.2 (hmin a' ha')⟩
        · intro _; rfl

/-- The two-anchor room used by the nearest-surface witness: surfaces at
distances 2 and 7 from every query point. -/
def twoSurfaceRoom : AMRUKRoom :=
  probeRoom
    [{ baseAnchor 1 with nearestPoint := fun _ => (⟨1, 0, 0⟩, 2) },
     { baseAnchor 2 with nearestPoint := fun _ => (⟨0, 1, 0⟩, 7) }]

/-- Witness for C3: in the two-surface room the query returns the surface at
distance 2, which is minimal, within the unbounded `MaxDistance = 0`. -/
theorem tryGetClosestSurfacePosition_spec_witness :
    TryGetClosestSurfacePosition twoSurfaceRoom ⟨0, 0, 0⟩ noFilter 0 =
      some ({ baseAnchor 1 with nearestPoint := fun _ => (⟨1, 0, 0⟩, 2) }, ⟨1, 0, 0⟩, 2) ∧
    ({ baseAnchor 1 with nearestPoint := fun _ => (⟨1, 0, 0⟩, 2) } ∈
        filteredAnchors twoSurfaceRoom noFilter ∧
      ((⟨1, 0, 0⟩ : Vec3), (2 : ℚ)) =
        AMRUKAnchor.nearestPoint { baseAnchor 1 with nearestPoint := fun _ => (⟨1, 0, 0⟩, 2) } ⟨0, 0, 0⟩ ∧
      (∀ a' ∈ filteredAnchors twoSurfaceRoom noFilter,
        (2 : ℚ) ≤ (a'.nearestPoint ⟨0, 0, 0⟩).2) ∧
      ((0 : ℚ) ≤ 0 ∨ (2 : ℚ) ≤ 0)) :=
  ⟨rfl, (tryGetClosestSurfacePosition_spec twoSurfaceRoom ⟨0, 0, 0⟩ noFilter 0).1
    { baseAnchor 1 with nearestPoint := fun _ => (⟨1, 0, 0⟩, 2) } ⟨1, 0, 0⟩ 2 rfl⟩

/-- Claim C4: an anchor participates in a query (raycasts, nearest surface,
best pose) iff the filter's include-set is empty or the anchor carries an
included label, and the anchor carries no excluded label. -/
theorem labelFilter_governs_participation (room : AMRUKRoom) (o d pos : Vec3)
    (m maxD : ℚ) (f : FMRUKLabelFilter) (method : EMRUKPositioningMethod) :
    (∀ a : AMRUKAnchor, passesFilter f a = true ↔
      ((f.includedLabels = [] ∨ ∃ l ∈ a.labels, l ∈ f.includedLabels) ∧
        ¬∃ l ∈ a.labels, l ∈ f.excludedLabels)) ∧
    (∀ a h, a ∈ room.allAnchors → passesFilter f a = true →
      a.rayIntersect o d m = some h → (h, a) ∈ raycastAllPairs room o d m f) ∧
    (∀ p ∈ raycastAllPairs room o d m f, passesFilter f p.2 = true) ∧
    (∀ a h, Raycast room o d m f = some (a, h) → passesFilter f a = true) ∧
    (∀ a p dd, TryGetClosestSurfacePosition room pos f maxD = some (a, p, dd) →
      passesFilter f a = true) ∧
    (∀ a t, GetBestPoseFromRaycast room o d m f method = some (a, t) →
      passesFilter f a = true) := by
  have hchar : ∀ a : AMRUKAnchor, passesFilter f a = true ↔
      ((f.includedLabels = [] ∨ ∃ l ∈ a.labels, l ∈ f.includedLabels) ∧
        ¬∃ l ∈ a.labels, l ∈ f.excludedLabels) := by
    intro a
    simp [passesFilter, List.isEmpty_iff, List.any_eq_true]
  have hray : ∀ a h, Raycast room o d m f = some (a, h) → passesFilter f a = true := by
    intro a h hc
    rcases raycastClosest_eq_some o d m (filteredAnchors room f) a h hc with
      ⟨l1, l2, heq, _, _⟩
    have hmem : (h, a) ∈ rayPairs o d m (filteredAnchors room f) := by
      rw [heq]; simp
    have := (mem_rayPairs o d m (filteredAnchors room f) (h, a) hmem).1
    exact (List.mem_filter.mp this).2
  refine ⟨hchar, ?_, ?_, hray, ?_, ?_⟩
  · intro a h hmem hpass hint
    apply List.mem_filterMap.mpr
    exact ⟨a, List.mem_filter.mpr ⟨hmem, hpass⟩, by rw [hint]; rfl⟩
  · intro p hp
    have := (mem_rayPairs o d m (filteredAnchors room f) p hp).1
    exact (List.mem_filter.mp this).2
  · intro a p dd hc
    have := ((tryGetClosestSurfacePosition_spec room pos f maxD).1 a p dd hc).1
    exact (List.mem_filter.mp this).2
  · intro a t hc
    rw [GetBestPoseFromRaycast] at hc
    rcases Option.map_eq_some'.mp hc with ⟨⟨a0, h0⟩, hr, hat⟩
    have ha : a0 = a := congrArg Prod.fst hat
    rw [ha] at hr
    exact hray a h0 hr

/-- Witness for C4: the second anchor of the two-anchor room is the raycast
result under the trivial filter, and it passes that filter. -/
theorem labelFilter_governs_participation_witness :
    Raycast twoHitRoom ⟨0, 0, 0⟩ ⟨1, 0, 0⟩ 10 noFilter =
      some (probeAnchor 2 (some (probeHit 3)), probeHit 3) ∧
    passesFilter noFilter (probeAnchor 2 (some (probeHit 3))) = true :=
  ⟨rfl, (labelFilter_governs_participation twoHitRoom ⟨0, 0, 0⟩ ⟨1, 0, 0⟩
      ⟨0, 0, 0⟩ 10 0 noFilter EMRUKPositioningMethod.Default).2.2.2.1
    (probeAnchor 2 (some (probeHit 3))) (probeHit 3) rfl⟩

/-- Claim C9: queries of the spatial query engine with no qualifying anchor,
hit or seat signal absence through their return value — a null, empty or
false result. -/
theorem queries_signal_absence_by_return (room : AMRUKRoom) (o d pos : Vec3)
    (m maxD : ℚ) (f : FMRUKLabelFilter) (label : String) (labels : List String) :
    ((∀ a ∈ room.allAnchors, label ∉ a.labels) →
      GetFirstAnchorByLabel room label = none ∧
      GetAnchorsByLabel room label = [] ∧
      GetLargestSurface room label = none) ∧
    (seatPosePairs room = [] → TryGetClosestSeatPose room o d = none) ∧
    (raycastAllPairs room o d m f = [] → Raycast room o d m f = none) ∧
    (filteredAnchors room f = [] →
      TryGetClosestSurfacePosition room pos f maxD = none) ∧
    ((∀ a ∈ room.allAnchors, ∀ l ∈ a.labels, l ∉ labels) →
      DoesRoomHave room labels = false) := by
  refine ⟨?_, ?_, ?_, ?_, ?_⟩
  · intro hno
    have hfil : GetAnchorsByLabel room label = [] := by
      apply List.filter_eq_nil_iff.mpr
      intro a ha
      simpa using hno a ha
    refine ⟨?_, hfil, ?_⟩
    · apply List.find?_eq_none.mpr
      intro a ha
      simpa using hno a ha
    · rw [GetLargestSurface, hfil]; rfl
  · intro hs
    rw [TryGetClosestSeatPose, hs]; rfl
  · intro hp
    exact (raycastClosest_eq_none_iff o d m (filteredAnchors room f)).mpr hp
  · intro hf
    rw [TryGetClosestSurfacePosition,
      (closestSurfaceScan_eq_none_iff pos (filteredAnchors room f)).mpr hf]
  · intro hno
    apply List.any_eq_false.mpr
    intro a ha
    simpa using hno a ha

/-- Witness for C9: the empty room has no anchor labeled TABLE, no seat, no
hit and no surface, and every query reports absence through its result. -/
theorem queries_signal_absence_by_return_witness :
    (∀ a ∈ (probeRoom []).allAnchors, "TABLE" ∉ a.labels) ∧
    (GetFirstAnchorByLabel (probeRoom []) "TABLE" = none ∧
      GetAnchorsByLabel (probeRoom []) "TABLE" = [] ∧
      GetLargestSurface (probeRoom []) "TABLE" = none) :=
  ⟨fun a ha => absurd ha (List.not_mem_nil a),
    (queries_signal_absence_by_return (probeRoom []) ⟨0, 0, 0⟩ ⟨1, 0, 0⟩ ⟨0, 0, 0⟩
      10 0 noFilter "TABLE" []).1 (fun a ha => absurd ha (List.not_mem_nil a))⟩

theorem selectLongestWall_eq_none_iff (l : List AMRUKAnchor) :
    selectLongestWall l = none ↔ l = [] := by
  cases l with
  | nil => simp [selectLongestWall]
  | cons w ws =>
    simp only [selectLongestWall, List.cons_ne_nil, iff_false]
    cases hrc : selectLongestWall ws with
    | none => simp
    | some w2 => by_cases hlt : w.wallLength < w2.wallLength <;> simp [hlt]

theorem selectLongestWall_eq_some (l : List AMRUKAnchor) (w : AMRUKAnchor)
    (hc : selectLongestWall l = some w) :
    (∀ w' ∈ l, w'.wallLength ≤ w.wallLength) ∧
      ∃ l1 l2, l = l1 ++ w :: l2 ∧ ∀ w' ∈ l1, w'.wallLength < w.wallLength := by
  induction l generalizing w with
  | nil => simp [selectLongestWall] at hc
  | cons w0 rest ih =>
    rw [selectLongestWall] at hc
    cases hrc : selectLongestWall rest with
    | none =>
      rw [hrc] at hc
      dsimp only at hc
      simp only [Option.some.injEq] at hc
      subst hc
      have hrest : rest = [] := (selectLongestWall_eq_none_iff rest).mp hrc
      subst hrest
      exact ⟨by simp, [], [], rfl, by simp⟩
    | some w2 =>
      rw [hrc] at hc
      dsimp only at hc
      rcases ih w2 hrc with ⟨hmax, l1, l2, heq, hl1⟩
      by_cases hlt : w0.wallLength < w2.wallLength
      · rw [if_pos hlt] at hc
        simp only [Option.some.injEq] at hc
        subst hc
        refine ⟨?_, w0 :: l1, l2, by rw [heq]; simp, ?_⟩
        · intro w' hw'
          rcases List.mem_cons.mp hw' with rfl | hw''
          · exact le_of_lt hlt
          · exact hmax w' hw''
        · intro w' hw'
          rcases List.mem_cons.mp hw' with rfl | hw''
          · exact hlt
          · exact hl1 w' hw''
      · rw [if_neg hlt] at hc
        simp only [Option.some.injEq] at hc
        subst hc
        refine ⟨?_, [], rest, rfl, by simp⟩
        intro w' hw'
        rcases List.mem_cons.mp hw' with rfl | hw''
        · exact le_refl _
        · exact le_trans (hmax w' hw'') (le_of_not_lt hlt)

/-- Claim C6: `GetKeyWall` selects, among the walls with no other wall behind
them beyond the tolerance, the longest one, ties broken by anchor insertion
order (first among equals); under no occlusion it is the longest wall of the
room, and a room with no walls yields nothing. -/
theorem getKeyWall_spec (room : AMRUKRoom) (tolerance : ℚ) :
    (room.wallAnchors = [] → GetKeyWall room tolerance = none) ∧
    (∀ w, GetKeyWall room tolerance = some w →
      w ∈ room.wallAnchors ∧
      wallHasWallBehind room.wallAnchors w tolerance = false ∧
      (∀ w' ∈ keyWallCandidates room tolerance, w'.wallLength ≤ w.wallLength) ∧
      ∃ l1 l2, keyWallCandidates room tolerance = l1 ++ w :: l2 ∧
        ∀ w' ∈ l1, w'.wallLength < w.wallLength) ∧
    ((∀ w ∈ room.wallAnchors,
        wallHasWallBehind room.wallAnchors w tolerance = false) →
      room.wallAnchors ≠ [] →
      ∃ w, GetKeyWall room tolerance = some w ∧
        ∀ w' ∈ room.wallAnchors, w'.wallLength ≤ w.wallLength) := by
  refine ⟨?_, ?_, ?_⟩
  · intro he
    rw [GetKeyWall, keyWallCandidates, he]
    rfl
  · intro w hc
    rcases selectLongestWall_eq_some (keyWallCandidates room tolerance) w hc with
      ⟨hmax, l1, l2, heq, hl1⟩
    have hmem : w ∈ keyWallCandidates room tolerance := by rw [heq]; simp
    have hmf := List.mem_filter.mp hmem
    refine ⟨hmf.1, ?_, hmax, l1, l2, heq, hl1⟩
    have := hmf.2
    simpa using this
  · intro hno hne
    have hcand : keyWallCandidates room tolerance = room.wallAnchors := by
      apply List.filter_eq_self.mpr
      intro w hw
      simp [hno w hw]
    cases hsel : GetKeyWall room tolerance with
    | none =>
      exfalso
      rw [GetKeyWall] at hsel
      have := (selectLongestWall_eq_none_iff (keyWallCandidates room tolerance)).mp hsel
      rw [hcand] at this
      exact hne this
    | some w =>
      rcases selectLongestWall_eq_some (keyWallCandidates room tolerance) w hsel with
        ⟨hmax, _⟩
      rw [hcand] at hmax
      exact ⟨w, rfl, hmax⟩

/-- A wall anchor of a given id and length whose plane never has anything
behind it (no corners on any wall). -/
def plainWall (i : Nat) (len : ℚ) : AMRUKAnchor :=
  { baseAnchor i with wallLength := len, labels := ["WALL_FACE"] }

/-- A rectangular 4-wall room: two walls of length 4 and two of length 3,
with no wall corners behind any other wall. -/
def rectWallRoom : AMRUKRoom :=
  { probeRoom [plainWall 1 4, plainWall 2 3, plainWall 3 4, plainWall 4 3] with
    wallAnchors := [plainWall 1 4, plainWall 2 3, plainWall 3 4, plainWall 4 3] }

/-- Witness for C6: on the rectangular 4-wall room with no occlusion, the key
wall exists and has the greatest length among the four walls. -/
theorem getKeyWall_spec_witness :
    (∀ w ∈ rectWallRoom.wallAnchors,
      wallHasWallBehind rectWallRoom.wallAnchors w (1 / 10) = false) ∧
    rectWallRoom.wallAnchors ≠ [] ∧
    ∃ w, GetKeyWall rectWallRoom (1 / 10) = some w ∧
      ∀ w' ∈ rectWallRoom.wallAnchors, w'.wallLength ≤ w.wallLength := by
  have hno : ∀ w ∈ rectWallRoom.wallAnchors,
      wallHasWallBehind rectWallRoom.wallAnchors w (1 / 10) = false := by
    intro w _
    simp [wallHasWallBehind, rectWallRoom, probeRoom, plainWall, baseAnchor]
  exact ⟨hno, by simp [rectWallRoom, probeRoom],
    (getKeyWall_spec rectWallRoom (1 / 10)).2.2 hno
      (by simp [rectWallRoom, probeRoom])⟩

/-- Claim C7: `LoadGlobalMeshFromJsonString` on malformed input — an
unparseable string, a missing vertex or triangle array, or a triangle index
referencing a vertex index at or past the vertex count — returns false and
leaves the room (and hence its global-mesh state) unchanged. -/
theorem loadGlobalMesh_malformed_fails (room : AMRUKRoom)
    (doc : Option FMRUKGlobalMeshJson) :
    (doc = none ∨
      (∃ dd, doc = some dd ∧ (dd.vertices = none ∨ dd.triangles = none)) ∨
      (∃ dd vs ts, doc = some dd ∧ dd.vertices = some vs ∧
        dd.triangles = some ts ∧ trianglesInRange vs ts = false)) →
    LoadGlobalMeshFromJsonString room doc = (false, room) := by
  rintro (rfl | ⟨dd, rfl, hmiss | hmiss⟩ | ⟨dd, vs, ts, rfl, hvs, hts, hrange⟩)
  · rfl
  · rw [LoadGlobalMeshFromJsonString, hmiss]
  · rw [LoadGlobalMeshFromJsonString, hmiss]
    cases dd.vertices <;> rfl
  · rw [LoadGlobalMeshFromJsonString, hvs, hts]
    dsimp only
    rw [if_neg (by rw [hrange]; exact Bool.false_ne_true)]

/-- A global-mesh document with one vertex and a triangle referencing vertex
index 1, which is out of range. -/
def badMeshDoc : FMRUKGlobalMeshJson :=
  { vertices := some [⟨0, 0, 0⟩], triangles := some [(0, 0, 1)] }

/-- Witness for C7: the document with an out-of-range triangle index is
rejected and the room is unchanged. -/
theorem loadGlobalMesh_malformed_fails_witness :
    ((some badMeshDoc : Option FMRUKGlobalMeshJson) = none ∨
      (∃ dd, (some badMeshDoc : Option FMRUKGlobalMeshJson) = some dd ∧
        (dd.vertices = none ∨ dd.triangles = none)) ∨
      (∃ dd vs ts, (some badMeshDoc : Option FMRUKGlobalMeshJson) = some dd ∧
        dd.vertices = some vs ∧ dd.triangles = some ts ∧
        trianglesInRange vs ts = false)) ∧
    LoadGlobalMeshFromJsonString (probeRoom []) (some badMeshDoc) =
      (false, probeRoom []) :=
  ⟨Or.inr (Or.inr ⟨badMeshDoc, [⟨0, 0, 0⟩], [(0, 0, 1)], rfl, rfl, rfl, rfl⟩),
    loadGlobalMesh_malformed_fails (probeRoom []) (some badMeshDoc)
      (Or.inr (Or.inr ⟨badMeshDoc, [⟨0, 0, 0⟩], [(0, 0, 1)], rfl, rfl, rfl, rfl⟩))⟩

/-- Claim C8: after `ClearRoom()` the anchor collection is empty, the floor,
ceiling, wall (and remaining hierarchy) references are null/empty, bounds and
edges are reset to default, and a removal notification is fired for exactly
the anchors that were released. -/
theorem clearRoom_resets_state (room : AMRUKRoom) :
    (ClearRoom room).1.allAnchors = [] ∧
    (ClearRoom room).1.floorAnchor = none ∧
    (ClearRoom room).1.ceilingAnchor = none ∧
    (ClearRoom room).1.wallAnchors = [] ∧
    (ClearRoom room).1.globalMeshAnchor = none ∧
    (ClearRoom room).1.seatAnchors = [] ∧
    (ClearRoom room).1.roomBounds = Box3.empty ∧
    (ClearRoom room).1.roomEdges = [] ∧
    (ClearRoom room).1.loadedGlobalMesh = none ∧
    (ClearRoom room).2 = room.allAnchors :=
  ⟨rfl, rfl, rfl, rfl, rfl, rfl, rfl, rfl, rfl, rfl⟩

/-- A box whose minimum corner is componentwise at most its maximum corner. -/
def validBox (b : Box3) : Prop :=
  b.min.x ≤ b.max.x ∧ b.min.y ≤ b.max.y ∧ b.min.z ≤ b.max.z

instance (b : Box3) : Decidable (validBox b) := by
  unfold validBox; infer_instance

/-- The smallest dimension of a box. -/
def smallestDimension (b : Box3) : ℚ :=
  min (b.max.x - b.min.x) (min (b.max.y - b.min.y) (b.max.z - b.min.z))

theorem clamp01_nonneg (q : ℚ) : 0 ≤ clamp01 q := le_max_left 0 _

theorem clamp01_le_one (q : ℚ) : clamp01 q ≤ 1 :=
  max_le (by norm_num) (min_le_left 1 q)

theorem sampleInBounds_contains (b : Box3) (u : Vec3) (hv : validBox b) :
    b.contains (sampleInBounds b u) := by
  rcases hv with ⟨hx, hy, hz⟩
  refine ⟨?_, ?_, ?_, ?_, ?_, ?_⟩
  · show b.min.x ≤ b.min.x + clamp01 u.x * (b.max.x - b.min.x)
    nlinarith [mul_nonneg (clamp01_nonneg u.x) (sub_nonneg.mpr hx)]
  · show b.min.x + clamp01 u.x * (b.max.x - b.min.x) ≤ b.max.x
    nlinarith [mul_le_of_le_one_left (sub_nonneg.mpr hx) (clamp01_le_one u.x)]
  · show b.min.y ≤ b.min.y + clamp01 u.y * (b.max.y - b.min.y)
    nlinarith [mul_nonneg (clamp01_nonneg u.y) (sub_nonneg.mpr hy)]
  · show b.min.y + clamp01 u.y * (b.max.y - b.min.y) ≤ b.max.y
    nlinarith [mul_le_of_le_one_left (sub_nonneg.mpr hy) (clamp01_le_one u.y)]
  · show b.min.z ≤ b.min.z + clamp01 u.z * (b.max.z - b.min.z)
    nlinarith [mul_nonneg (clamp01_nonneg u.z) (sub_nonneg.mpr hz)]
  · show b.min.z + clamp01 u.z * (b.max.z - b.min.z) ≤ b.max.z
    nlinarith [mul_le_of_le_one_left (sub_nonneg.mpr hz) (clamp01_le_one u.z)]

theorem generateLoop_eq_none (room : AMRUKRoom) (stream : Nat → Vec3)
    (minD : ℚ) (avoid : Bool) (fuel i : Nat)
    (h : ∀ j, i ≤ j → j < i + fuel →
      positionAcceptable room minD avoid
        (sampleInBounds room.roomBounds (stream j)) = false) :
    generateLoop room stream minD avoid i fuel = none := by
  induction fuel generalizing i with
  | zero => rfl
  | succ n ih =>
    rw [generateLoop]
    rw [h i (le_refl i) (by omega)]
    simp only [Bool.false_eq_true, if_false]
    exact ih (i + 1) (fun j hj1 hj2 => h j (by omega) (by omega))

theorem generateLoop_eq_some (room : AMRUKRoom) (stream : Nat → Vec3)
    (minD : ℚ) (avoid : Bool) (fuel i : Nat) (p : Vec3)
    (h : generateLoop room stream minD avoid i fuel = some p) :
    ∃ j, i ≤ j ∧ j < i + fuel ∧
      p = sampleInBounds room.roomBounds (stream j) ∧
      positionAcceptable room minD avoid p = true := by
  induction fuel generalizing i with
  | zero => simp [generateLoop] at h
  | succ n ih =>
    rw [generateLoop] at h
    by_cases hacc : positionAcceptable room minD avoid
        (sampleInBounds room.roomBounds (stream i)) = true
    · rw [if_pos hacc] at h
      simp only [Option.some.injEq] at h
      exact ⟨i, le_refl i, by omega, h.symm, h ▸ hacc⟩
    · rw [if_neg hacc] at h
      rcases ih (i + 1) h with ⟨j, hj1, hj2, hjs, hja⟩
      exact ⟨j, by omega, by omega, hjs, hja⟩

/-- Claim C2: random position generation is a bounded rejection-sampling loop:
it never samples more than the fixed retry budget, exhausting the budget
without an acceptable point returns failure, and in particular when
`minDistanceToSurface` exceeds half the room's smallest dimension (so that
every point of the room's bounding box is closer than that to some surface)
the operation fails instead of looping forever; the non-stream variant is the
stream variant run on the default generator. -/
theorem generateRandomPosition_bounded (room : AMRUKRoom) (stream : Nat → Vec3)
    (minD : ℚ) (avoid : Bool) :
    (GenerateRandomPositionInRoom room minD avoid =
      GenerateRandomPositionInRoomFromStream room defaultRandomStream minD avoid) ∧
    (∀ p, GenerateRandomPositionInRoomFromStream room stream minD avoid = some p →
      ∃ i, i < maxGenerateRetries ∧
        p = sampleInBounds room.roomBounds (stream i) ∧
        positionAcceptable room minD avoid p = true) ∧
    ((∀ i, i < maxGenerateRetries →
        positionAcceptable room minD avoid
          (sampleInBounds room.roomBounds (stream i)) = false) →
      GenerateRandomPositionInRoomFromStream room stream minD avoid = none) ∧
    (validBox room.roomBounds →
      smallestDimension room.roomBounds / 2 < minD →
      (∀ p, room.roomBounds.contains p →
        ∃ a q dd, TryGetClosestSurfacePosition room p noFilter 0 = some (a, q, dd) ∧
          dd ≤ smallestDimension room.roomBounds / 2) →
      GenerateRandomPositionInRoomFromStream room stream minD avoid = none) := by
  have hrej : ∀ (hv : validBox room.roomBounds),
      smallestDimension room.roomBounds / 2 < minD →
      (∀ p, room.roomBounds.contains p →
        ∃ a q dd, TryGetClosestSurfacePosition room p noFilter 0 = some (a, q, dd) ∧
          dd ≤ smallestDimension room.roomBounds / 2) →
      ∀ u : Vec3, positionAcceptable room minD avoid
        (sampleInBounds room.roomBounds u) = false := by
    intro hv hmin hsurf u
    rcases hsurf (sampleInBounds room.roomBounds u)
        (sampleInBounds_contains room.roomBounds u hv) with ⟨a, q, dd, hcl, hdd⟩
    rw [positionAcceptable, hcl]
    have : ¬(minD ≤ dd) := not_le_of_lt (lt_of_le_of_lt hdd hmin)
    simp [this]
  refine ⟨rfl, ?_, ?_, ?_⟩
  · intro p hp
    rcases generateLoop_eq_some room stream minD avoid maxGenerateRetries 0 p hp with
      ⟨j, _, hj2, hjs, hja⟩
    exact ⟨j, by omega, hjs, hja⟩
  · intro hall
    exact generateLoop_eq_none room stream minD avoid maxGenerateRetries 0
      (fun j _ hj2 => hall j (by omega))
  · intro hv hmin hsurf
    exact generateLoop_eq_none room stream minD avoid maxGenerateRetries 0
      (fun j _ _ => hrej hv hmin hsurf (stream j))

/-- The floor surface of the sampling witness room: nearest point straight
down, at distance equal to the height above the floor plane `z = 0`. -/
def flatFloorAnchor : AMRUKAnchor :=
  { baseAnchor 1 with
    labels := ["FLOOR"]
    nearestPoint := fun p => (⟨p.x, p.y, 0⟩, p.z) }

/-- The ceiling surface of the sampling witness room: nearest point straight
up, at distance equal to the gap below the ceiling plane `z = 2`. -/
def flatCeilingAnchor : AMRUKAnchor :=
  { baseAnchor 2 with
    labels := ["CEILING"]
    position := ⟨0, 0, 2⟩
    nearestPoint := fun p => (⟨p.x, p.y, 2⟩, 2 - p.z) }

/-- A 2×2×2 room enclosed by the flat floor and ceiling surfaces. -/
def slabRoom : AMRUKRoom :=
  { probeRoom [flatFloorAnchor, flatCeilingAnchor] with
    roomBounds := ⟨⟨0, 0, 0⟩, ⟨2, 2, 2⟩⟩
    floorAnchor := some flatFloorAnchor
    ceilingAnchor := some flatCeilingAnchor }

theorem slabRoom_surface_close : ∀ p, slabRoom.roomBounds.contains p →
    ∃ a q dd, TryGetClosestSurfacePosition slabRoom p noFilter 0 = some (a, q, dd) ∧
      dd ≤ smallestDimension slabRoom.roomBounds / 2 := by
  intro p hp
  rcases hp with ⟨_, _, _, _, hz0, hz2⟩
  have hz2' : p.z ≤ 2 := hz2
  have hz0' : (0 : ℚ) ≤ p.z := hz0
  have hsd : smallestDimension slabRoom.roomBounds / 2 = 1 := by
    norm_num [smallestDimension, slabRoom, probeRoom]
  have hfil : filteredAnchors slabRoom noFilter =
      [flatFloorAnchor, flatCeilingAnchor] := rfl
  have hscan : closestSurfaceScan p [flatFloorAnchor, flatCeilingAnchor] =
      if 2 - p.z < p.z then some (flatCeilingAnchor, ⟨p.x, p.y, 2⟩, 2 - p.z)
      else some (flatFloorAnchor, ⟨p.x, p.y, 0⟩, p.z) := rfl
  rw [TryGetClosestSurfacePosition, hfil, hscan]
  by_cases hc : (2 : ℚ) - p.z < p.z
  · rw [if_pos hc]
    dsimp only
    refine ⟨flatCeilingAnchor, ⟨p.x, p.y, 2⟩, 2 - p.z, ?_, ?_⟩
    · rw [if_pos (by simp : (decide ((0 : ℚ) ≤ 0) || decide (2 - p.z ≤ 0)) = true)]
    · rw [hsd]; linarith
  · rw [if_neg hc]
    dsimp only
    refine ⟨flatFloorAnchor, ⟨p.x, p.y, 0⟩, p.z, ?_, ?_⟩
    · rw [if_pos (by simp : (decide ((0 : ℚ) ≤ 0) || decide (p.z ≤ 0)) = true)]
    · rw [hsd]; linarith [le_of_not_lt hc]

/-- Witness for C2: in the slab room every bounding-box point is within
distance 1 of a surface, so requesting a minimum surface distance of 3/2
makes the generation fail (for the default stream, discharging the
hypotheses concretely). -/
theorem generateRandomPosition_bounded_witness :
    validBox slabRoom.roomBounds ∧
    smallestDimension slabRoom.roomBounds / 2 < 3 / 2 ∧
    GenerateRandomPositionInRoomFromStream slabRoom defaultRandomStream
      (3 / 2) false = none := by
  have hv : validBox slabRoom.roomBounds := by
    refine ⟨?_, ?_, ?_⟩ <;> norm_num [slabRoom, probeRoom]
  have hlt : smallestDimension slabRoom.roomBounds / 2 < 3 / 2 := by
    norm_num [smallestDimension, slabRoom, probeRoom]
  refine ⟨hv, hlt, ?_⟩
  exact (generateRandomPosition_bounded slabRoom defaultRandomStream
      (3 / 2) false).2.2.2 hv hlt slabRoom_surface_close

/-! ## Geometry lemmas for the ray-crossing point-in-polygon test -/

theorem xIntersect_between (x1 y1 x2 y2 py : ℚ)
    (h : (decide (py < y1) != decide (py < y2)) = true) :
    min x1 x2 ≤ x1 + (py - y1) * (x2 - x1) / (y2 - y1) ∧
      x1 + (py - y1) * (x2 - x1) / (y2 - y1) ≤ max x1 x2 := by
  have key : ∀ t : ℚ, 0 ≤ t → t ≤ 1 →
      min x1 x2 ≤ x1 + t * (x2 - x1) ∧ x1 + t * (x2 - x1) ≤ max x1 x2 := by
    intro t ht0 ht1
    rcases le_total x1 x2 with hx | hx
    · rw [min_eq_left hx, max_eq_right hx]
      constructor <;> nlinarith
    · rw [min_eq_right hx, max_eq_left hx]
      constructor <;> nlinarith
  rw [mul_div_right_comm]
  by_cases hy1 : py < y1 <;> by_cases hy2 : py < y2 <;> simp [hy1, hy2] at h
  · -- py < y1 and y2 ≤ py : the edge descends through the scan line
    have hD : y2 - y1 < 0 := by linarith
    refine key _ ?_ ?_
    · exact div_nonneg_iff.mpr (Or.inr ⟨by linarith, le_of_lt hD⟩)
    · rw [div_le_one_iff]
      exact Or.inr (Or.inr ⟨hD, by linarith⟩)
  · -- y1 ≤ py and py < y2 : the edge ascends through the scan line
    have hD : 0 < y2 - y1 := by linarith
    refine key _ ?_ ?_
    · exact div_nonneg (by linarith) (le_of_lt hD)
    · exact (div_le_one hD).mpr (by linarith)

theorem edgeCrosses_false_of_right (px py : ℚ) (p1 p2 : ℚ × ℚ)
    (h1 : p1.1 ≤ px) (h2 : p2.1 ≤ px) :
    edgeCrosses px py p1 p2 = false := by
  rw [edgeCrosses]
  by_cases hy : (decide (py < p1.2) != decide (py < p2.2)) = true
  · have hx := (xIntersect_between p1.1 p1.2 p2.1 p2.2 py hy).2
    have hnot : ¬(px < p1.1 + (py - p1.2) * (p2.1 - p1.1) / (p2.2 - p1.2)) :=
      not_lt.mpr (le_trans hx (max_le h1 h2))
    rw [hy, Bool.true_and]
    exact decide_eq_false hnot
  · rw [Bool.not_eq_true] at hy
    rw [hy, Bool.false_and]

theorem edgeCrosses_eq_flip_of_left (px py : ℚ) (p1 p2 : ℚ × ℚ)
    (h1 : px < p1.1) (h2 : px < p2.1) :
    edgeCrosses px py p1 p2 = (decide (py < p1.2) != decide (py < p2.2)) := by
  rw [edgeCrosses]
  by_cases hy : (decide (py < p1.2) != decide (py < p2.2)) = true
  · have hx := (xIntersect_between p1.1 p1.2 p2.1 p2.2 py hy).1
    have hlt : px < p1.1 + (py - p1.2) * (p2.1 - p1.1) / (p2.2 - p1.2) :=
      lt_of_lt_of_le (lt_min h1 h2) hx
    rw [hy, Bool.true_and, decide_eq_true hlt]
  · rw [Bool.not_eq_true] at hy
    rw [hy, Bool.false_and]

theorem countIf_eq_zero {α : Type} (p : α → Bool) (l : List α)
    (h : ∀ e ∈ l, p e = false) : countIf p l = 0 := by
  induction l with
  | nil => rfl
  | cons e es ih =>
    rw [countIf, h e (List.mem_cons_self e es)]
    simp only [Bool.false_eq_true, if_false, Nat.zero_add]
    exact ih (fun x hx => h x (List.mem_cons_of_mem e hx))

theorem countIf_congr {α : Type} (p q : α → Bool) (l : List α)
    (h : ∀ e ∈ l, p e = q e) : countIf p l = countIf q l := by
  induction l with
  | nil => rfl
  | cons e es ih =>
    rw [countIf, countIf, h e (List.mem_cons_self e es),
      ih (fun x hx => h x (List.mem_cons_of_mem e hx))]

theorem countIf_flip_chain {α : Type} (g : α → Bool) (a b : α) (l : List α) :
    countIf (fun e => g e.1 != g e.2) (List.zip (a :: l) (l ++ [b])) % 2 =
      (if g a != g b then 1 else 0) := by
  induction l generalizing a with
  | nil =>
    rw [show List.zip [a] ([] ++ [b]) = [(a, b)] from rfl, countIf, countIf]
    cases hga : g a <;> cases hgb : g b <;> simp
  | cons c l' ih =>
    rw [show List.zip (a :: c :: l') ((c :: l') ++ [b]) =
      (a, c) :: List.zip (c :: l') (l' ++ [b]) from rfl]
    rw [countIf, Nat.add_mod, ih c]
    cases hga : g a <;> cases hgc : g c <;> cases hgb : g b <;>
      simp [hga, hgc, hgb]

theorem polygon_flip_even (g : ℚ × ℚ → Bool) (poly : List (ℚ × ℚ)) :
    countIf (fun e => g e.1 != g e.2) (polygonEdges poly) % 2 = 0 := by
  cases poly with
  | nil => rfl
  | cons v vs =>
    rw [polygonEdges, countIf_flip_chain g v v vs]
    simp

theorem polygonEdges_mem (poly : List (ℚ × ℚ)) (e : (ℚ × ℚ) × (ℚ × ℚ))
    (he : e ∈ polygonEdges poly) : e.1 ∈ poly ∧ e.2 ∈ poly := by
  cases poly with
  | nil => simp [polygonEdges] at he
  | cons v vs =>
    rw [polygonEdges] at he
    rcases e with ⟨e1, e2⟩
    have hz := List.of_mem_zip he
    refine ⟨hz.1, ?_⟩
    rcases List.mem_append.mp hz.2 with h | h
    · exact List.mem_cons_of_mem v h
    · rw [List.mem_singleton.mp h]
      exact List.mem_cons_self v vs

theorem isPointInPolygon2D_false_outside (px py : ℚ) (poly : List (ℚ × ℚ))
    (h : (∀ w ∈ poly, w.1 ≤ px) ∨ (∀ w ∈ poly, px < w.1) ∨
      (∀ w ∈ poly, w.2 ≤ py) ∨ (∀ w ∈ poly, py < w.2)) :
    isPointInPolygon2D px py poly = false := by
  rw [isPointInPolygon2D]
  rcases h with h | h | h | h
  · have hz : countIf (fun e => edgeCrosses px py e.1 e.2) (polygonEdges poly) = 0 := by
      apply countIf_eq_zero
      intro e he
      rcases polygonEdges_mem poly e he with ⟨h1, h2⟩
      exact edgeCrosses_false_of_right px py e.1 e.2 (h e.1 h1) (h e.2 h2)
    rw [hz]
    rfl
  · rw [countIf_congr (fun e => edgeCrosses px py e.1 e.2)
        (fun e => decide (py < e.1.2) != decide (py < e.2.2)) (polygonEdges poly)
        (fun e he => by
          rcases polygonEdges_mem poly e he with ⟨h1, h2⟩
          exact edgeCrosses_eq_flip_of_left px py e.1 e.2 (h e.1 h1) (h e.2 h2)),
      polygon_flip_even (fun w => decide (py < w.2)) poly]
    rfl
  · have hz : countIf (fun e => edgeCrosses px py e.1 e.2) (polygonEdges poly) = 0 := by
      apply countIf_eq_zero
      intro e he
      rcases polygonEdges_mem poly e he with ⟨h1, h2⟩
      rw [edgeCrosses, decide_eq_false (not_lt.mpr (h e.1 h1)),
        decide_eq_false (not_lt.mpr (h e.2 h2))]
      rfl
    rw [hz]
    rfl
  · have hz : countIf (fun e => edgeCrosses px py e.1 e.2) (polygonEdges poly) = 0 := by
      apply countIf_eq_zero
      intro e he
      rcases polygonEdges_mem poly e he with ⟨h1, h2⟩
      rw [edgeCrosses, decide_eq_true (h e.1 h1), decide_eq_true (h e.2 h2)]
      rfl
    rw [hz]
    rfl

/-- The room's centroid: the average of the derived boundary-polygon
vertices. -/
def roomCentroid (room : AMRUKRoom) : Vec3 :=
  { x := (room.roomEdges.map (fun v => v.x)).sum / (room.roomEdges.length : ℚ)
    y := (room.roomEdges.map (fun v => v.y)).sum / (room.roomEdges.length : ℚ)
    z := (room.roomEdges.map (fun v => v.z)).sum / (room.roomEdges.length : ℚ) }

theorem centroid_in_rectangle (x0 y0 x1 y1 : ℚ) (hx : x0 < x1) (hy : y0 < y1) :
    isPointInPolygon2D ((x0 + x1) / 2) ((y0 + y1) / 2)
      [(x0, y0), (x1, y0), (x1, y1), (x0, y1)] = true := by
  set px : ℚ := (x0 + x1) / 2 with hpx
  set py : ℚ := (y0 + y1) / 2 with hpy
  have hpxl : x0 < px := by rw [hpx]; linarith
  have hpxr : px < x1 := by rw [hpx]; linarith
  have hpyl : ¬(py < y0) := by rw [hpy]; push_neg; linarith
  have hpyr : py < y1 := by rw [hpy]; linarith
  have h1 : edgeCrosses px py (x0, y0) (x1, y0) = false := by
    dsimp only [edgeCrosses]
    rw [bne_self_eq_false, Bool.false_and]
  have h2 : edgeCrosses px py (x1, y0) (x1, y1) = true := by
    dsimp only [edgeCrosses]
    rw [decide_eq_false hpyl, decide_eq_true hpyr]
    have hxe : x1 + (py - y0) * (x1 - x1) / (y1 - y0) = x1 := by ring
    rw [hxe, decide_eq_true hpxr]
    rfl
  have h3 : edgeCrosses px py (x1, y1) (x0, y1) = false := by
    dsimp only [edgeCrosses]
    rw [bne_self_eq_false, Bool.false_and]
  have h4 : edgeCrosses px py (x0, y1) (x0, y0) = false := by
    dsimp only [edgeCrosses]
    rw [decide_eq_true hpyr, decide_eq_false hpyl]
    have hxe : x0 + (py - y1) * (x0 - x0) / (y0 - y1) = x0 := by ring
    rw [hxe, decide_eq_false (not_lt.mpr (le_of_lt hpxl))]
    rfl
  rw [isPointInPolygon2D]
  rw [show polygonEdges [(x0, y0), (x1, y0), (x1, y1), (x0, y1)] =
    [((x0, y0), (x1, y0)), ((x1, y0), (x1, y1)), ((x1, y1), (x0, y1)),
      ((x0, y1), (x0, y0))] from rfl]
  simp only [countIf, h1, h2, h3, h4]
  rfl

/-- Claim C5 (amended): `IsPositionInRoom` is the conjunction of the derived
boundary-polygon 2D test and, when `TestVerticalBounds` is set, the
floor-to-ceiling height check; it is false for every point strictly outside
the room's bounds horizontally (for any vertical-bounds flag) and for every
point strictly outside vertically when the flag is set; and the room's
centroid is inside whenever the boundary polygon is an axis-aligned
rectangle whose plane lies between floor and ceiling. -/
theorem isPositionInRoom_spec (room : AMRUKRoom) (p : Vec3) (tv : Bool) :
    (IsPositionInRoom room p tv = true ↔
      (isPointInPolygon2D p.x p.y room.edgePolygon = true ∧
        (tv = true →
          (∀ fa, room.floorAnchor = some fa → fa.position.z ≤ p.z) ∧
          (∀ ca, room.ceilingAnchor = some ca → p.z ≤ ca.position.z)))) ∧
    ((∀ v ∈ room.roomEdges, room.roomBounds.contains v) →
      (p.x < room.roomBounds.min.x ∨ room.roomBounds.max.x < p.x ∨
        p.y < room.roomBounds.min.y ∨ room.roomBounds.max.y < p.y) →
      IsPositionInRoom room p tv = false) ∧
    (∀ fa ca, room.floorAnchor = some fa → room.ceilingAnchor = some ca →
      room.roomBounds.min.z ≤ fa.position.z →
      ca.position.z ≤ room.roomBounds.max.z →
      (p.z < room.roomBounds.min.z ∨ room.roomBounds.max.z < p.z) →
      IsPositionInRoom room p true = false) ∧
    (∀ x0 y0 x1 y1 zf fa ca, x0 < x1 → y0 < y1 →
      room.roomEdges = [⟨x0, y0, zf⟩, ⟨x1, y0, zf⟩, ⟨x1, y1, zf⟩, ⟨x0, y1, zf⟩] →
      room.floorAnchor = some fa → room.ceilingAnchor = some ca →
      fa.position.z ≤ zf → zf ≤ ca.position.z →
      IsPositionInRoom room (roomCentroid room) tv = true) := by
  refine ⟨?_, ?_, ?_, ?_⟩
  · cases tv <;> cases hfa : room.floorAnchor <;> cases hca : room.ceilingAnchor <;>
      simp [IsPositionInRoom, hfa, hca]
  · intro hverts hout
    have hpoly : isPointInPolygon2D p.x p.y room.edgePolygon = false := by
      apply isPointInPolygon2D_false_outside
      have hmem : ∀ w ∈ room.edgePolygon, ∃ v ∈ room.roomEdges,
          w = (v.x, v.y) := by
        intro w hw
        rcases List.mem_map.mp hw with ⟨v, hv, hvw⟩
        exact ⟨v, hv, hvw.symm⟩
      rcases hout with h | h | h | h
      · refine Or.inr (Or.inl ?_)
        intro w hw
        rcases hmem w hw with ⟨v, hv, rfl⟩
        exact lt_of_lt_of_le h (hverts v hv).1
      · refine Or.inl ?_
        intro w hw
        rcases hmem w hw with ⟨v, hv, rfl⟩
        exact le_of_lt (lt_of_le_of_lt (hverts v hv).2.1 h)
      · refine Or.inr (Or.inr (Or.inr ?_))
        intro w hw
        rcases hmem w hw with ⟨v, hv, rfl⟩
        exact lt_of_lt_of_le h (hverts v hv).2.2.1
      · refine Or.inr (Or.inr (Or.inl ?_))
        intro w hw
        rcases hmem w hw with ⟨v, hv, rfl⟩
        exact le_of_lt (lt_of_le_of_lt (hverts v hv).2.2.2.1 h)
    rw [IsPositionInRoom, hpoly, Bool.false_and]
  · intro fa ca hfa hca hfz hcz hout
    rw [IsPositionInRoom, hfa, hca]
    rcases hout with h | h
    · have : ¬(fa.position.z ≤ p.z) := not_le.mpr (lt_of_lt_of_le h hfz)
      simp [this]
    · have : ¬(p.z ≤ ca.position.z) := not_le.mpr (lt_of_le_of_lt hcz h)
      simp [this]
  · intro x0 y0 x1 y1 zf fa ca hx hy hedges hfa hca hfz hcz
    have hlen : (room.roomEdges.length : ℚ) = 4 := by rw [hedges]; norm_num
    have hcx : (roomCentroid room).x = (x0 + x1) / 2 := by
      rw [roomCentroid]
      dsimp only
      rw [hedges]
      simp only [List.map_cons, List.map_nil, List.sum_cons, List.sum_nil,
        List.length_cons, List.length_nil]
      push_cast
      ring
    have hcy : (roomCentroid room).y = (y0 + y1) / 2 := by
      rw [roomCentroid]
      dsimp only
      rw [hedges]
      simp only [List.map_cons, List.map_nil, List.sum_cons, List.sum_nil,
        List.length_cons, List.length_nil]
      push_cast
      ring
    have hcz' : (roomCentroid room).z = zf := by
      rw [roomCentroid]
      dsimp only
      rw [hedges]
      simp only [List.map_cons, List.map_nil, List.sum_cons, List.sum_nil,
        List.length_cons, List.length_nil]
      push_cast
      ring
    have hpoly : room.edgePolygon = [(x0, y0), (x1, y0), (x1, y1), (x0, y1)] := by
      rw [AMRUKRoom.edgePolygon, hedges]
      rfl
    rw [IsPositionInRoom, hfa, hca, hpoly, hcx, hcy, hcz',
      centroid_in_rectangle x0 y0 x1 y1 hx hy, Bool.true_and]
    dsimp only
    rw [decide_eq_true hfz, decide_eq_true hcz]
    cases tv <;> rfl

/-- A wall anchor along one plan-view boundary segment. -/
def segWall (i : Nat) (a b : ℚ × ℚ) : AMRUKAnchor :=
  { baseAnchor i with labels := ["WALL_FACE"], corners := [a, b] }

/-- The floor anchor (height 0) of the concrete rooms below. -/
def lFloorAnchor : AMRUKAnchor :=
  { baseAnchor 7 with labels := ["FLOOR"] }

/-- The ceiling anchor (height 3) of the concrete rooms below. -/
def lCeilingAnchor : AMRUKAnchor :=
  { baseAnchor 8 with labels := ["CEILING"], position := ⟨0, 0, 3⟩ }

/-- An L-shaped room: six walls around the boundary polygon
(0,0) (4,0) (4,1) (1,1) (1,4) (0,4), floor at height 0, ceiling at 3. -/
def lShapeRoom : AMRUKRoom :=
  { roomBounds := ⟨⟨0, 0, 0⟩, ⟨4, 4, 3⟩⟩
    roomEdges := [⟨0, 0, 0⟩, ⟨4, 0, 0⟩, ⟨4, 1, 0⟩, ⟨1, 1, 0⟩, ⟨1, 4, 0⟩, ⟨0, 4, 0⟩]
    floorAnchor := some lFloorAnchor
    ceilingAnchor := some lCeilingAnchor
    wallAnchors := [segWall 1 (0, 0) (4, 0), segWall 2 (4, 0) (4, 1),
      segWall 3 (4, 1) (1, 1), segWall 4 (1, 1) (1, 4),
      segWall 5 (1, 4) (0, 4), segWall 6 (0, 4) (0, 0)]
    globalMeshAnchor := none
    seatAnchors := []
    allAnchors := [segWall 1 (0, 0) (4, 0), segWall 2 (4, 0) (4, 1),
      segWall 3 (4, 1) (1, 1), segWall 4 (1, 1) (1, 4),
      segWall 5 (1, 4) (0, 4), segWall 6 (0, 4) (0, 0),
      lFloorAnchor, lCeilingAnchor]
    loadedGlobalMesh := none }

/-- Counterexample to claim C5 as stated: the L-shaped room has six wall
anchors forming a closed boundary polygon with non-collinear vertices, the
centroid's height is within the floor and ceiling bounds, yet
`IsPositionInRoom` is false at the room's centroid — the vertex centroid of
a non-convex boundary polygon can lie outside the room. -/
theorem isPositionInRoom_centroid_counterexample :
    lShapeRoom.wallAnchors.length = 6 ∧
    lShapeRoom.roomEdges.length = 6 ∧
    (⟨0, 0, 0⟩ : Vec3) ∈ lShapeRoom.roomEdges ∧
    (⟨4, 0, 0⟩ : Vec3) ∈ lShapeRoom.roomEdges ∧
    (⟨4, 1, 0⟩ : Vec3) ∈ lShapeRoom.roomEdges ∧
    ((4 - 0) * (1 - 0) - (4 - 0) * (0 - 0) : ℚ) ≠ 0 ∧
    lFloorAnchor.position.z ≤ (roomCentroid lShapeRoom).z ∧
    (roomCentroid lShapeRoom).z ≤ lCeilingAnchor.position.z ∧
    IsPositionInRoom lShapeRoom (roomCentroid lShapeRoom) true = false := by
  have hc : roomCentroid lShapeRoom = ⟨5 / 3, 5 / 3, 0⟩ := by
    rw [roomCentroid]
    rw [show lShapeRoom.roomEdges =
      [⟨0, 0, 0⟩, ⟨4, 0, 0⟩, ⟨4, 1, 0⟩, ⟨1, 1, 0⟩, ⟨1, 4, 0⟩, ⟨0, 4, 0⟩] from rfl]
    simp only [List.map_cons, List.map_nil, List.sum_cons, List.sum_nil,
      List.length_cons, List.length_nil, Vec3.mk.injEq]
    refine ⟨?_, ?_, ?_⟩ <;> push_cast <;> norm_num
  have c1 : edgeCrosses (5 / 3) (5 / 3) (0, 0) (4, 0) = false := by
    dsimp only [edgeCrosses]
    rw [bne_self_eq_false, Bool.false_and]
  have c2 : edgeCrosses (5 / 3) (5 / 3) (4, 0) (4, 1) = false := by
    dsimp only [edgeCrosses]
    rw [decide_eq_false (by norm_num : ¬(5 / 3 : ℚ) < 0),
      decide_eq_false (by norm_num : ¬(5 / 3 : ℚ) < 1)]
    rfl
  have c3 : edgeCrosses (5 / 3) (5 / 3) (4, 1) (1, 1) = false := by
    dsimp only [edgeCrosses]
    rw [bne_self_eq_false, Bool.false_and]
  have c4 : edgeCrosses (5 / 3) (5 / 3) (1, 1) (1, 4) = false := by
    dsimp only [edgeCrosses]
    rw [decide_eq_false (by norm_num : ¬(5 / 3 : ℚ) < 1),
      decide_eq_true (by norm_num : (5 / 3 : ℚ) < 4)]
    have hxe : (1 : ℚ) + (5 / 3 - 1) * (1 - 1) / (4 - 1) = 1 := by norm_num
    rw [hxe, decide_eq_false (by norm_num : ¬(5 / 3 : ℚ) < 1)]
    rfl
  have c5 : edgeCrosses (5 / 3) (5 / 3) (1, 4) (0, 4) = false := by
    dsimp only [edgeCrosses]
    rw [bne_self_eq_false, Bool.false_and]
  have c6 : edgeCrosses (5 / 3) (5 / 3) (0, 4) (0, 0) = false := by
    dsimp only [edgeCrosses]
    rw [decide_eq_true (by norm_num : (5 / 3 : ℚ) < 4),
      decide_eq_false (by norm_num : ¬(5 / 3 : ℚ) < 0)]
    have hxe : (0 : ℚ) + (5 / 3 - 4) * (0 - 0) / (0 - 4) = 0 := by norm_num
    rw [hxe, decide_eq_false (by norm_num : ¬(5 / 3 : ℚ) < 0)]
    rfl
  have hin : isPointInPolygon2D (5 / 3) (5 / 3)
      [(0, 0), (4, 0), (4, 1), (1, 1), (1, 4), (0, 4)] = false := by
    rw [isPointInPolygon2D]
    rw [show polygonEdges [(0, 0), (4, 0), (4, 1), (1, 1), (1, 4), (0, 4)] =
      [((0, 0), (4, 0)), ((4, 0), (4, 1)), ((4, 1), (1, 1)), ((1, 1), (1, 4)),
        ((1, 4), (0, 4)), ((0, 4), (0, 0))] from rfl]
    simp only [countIf, c1, c2, c3, c4, c5, c6]
    rfl
  refine ⟨rfl, rfl, by decide, by decide, by decide, by norm_num, ?_, ?_, ?_⟩
  · rw [hc]; decide
  · rw [hc]; decide
  · rw [hc, IsPositionInRoom]
    dsimp only
    rw [show lShapeRoom.edgePolygon =
      [(0, 0), (4, 0), (4, 1), (1, 1), (1, 4), (0, 4)] from rfl]
    rw [hin, Bool.false_and]

/-- A 4×3 rectangular room with the same floor and ceiling anchors. -/
def rectRoom4x3 : AMRUKRoom :=
  { probeRoom [] with
    roomEdges := [⟨0, 0, 0⟩, ⟨4, 0, 0⟩, ⟨4, 3, 0⟩, ⟨0, 3, 0⟩]
    floorAnchor := some lFloorAnchor
    ceilingAnchor := some lCeilingAnchor }

/-- Witness for C5: the rectangular room's centroid is reported inside, with
all the hypotheses of the rectangle case discharged concretely. -/
theorem isPositionInRoom_spec_witness :
    (0 : ℚ) < 4 ∧ (0 : ℚ) < 3 ∧
    rectRoom4x3.roomEdges = [⟨0, 0, 0⟩, ⟨4, 0, 0⟩, ⟨4, 3, 0⟩, ⟨0, 3, 0⟩] ∧
    rectRoom4x3.floorAnchor = some lFloorAnchor ∧
    rectRoom4x3.ceilingAnchor = some lCeilingAnchor ∧
    lFloorAnchor.position.z ≤ 0 ∧ (0 : ℚ) ≤ lCeilingAnchor.position.z ∧
    IsPositionInRoom rectRoom4x3 (roomCentroid rectRoom4x3) true = true :=
  ⟨by norm_num, by norm_num, rfl, rfl, rfl, by decide, by decide,
    (isPositionInRoom_spec rectRoom4x3 ⟨0, 0, 0⟩ true).2.2.2 0 0 4 3 0
      lFloorAnchor lCeilingAnchor (by norm_num) (by norm_num) rfl rfl rfl
      (by decide) (by decide)⟩

end MRUK
